import Mathlib

/-!
Shallow embedding of the egui/winit platform adapter (`src/lib.rs`) and proofs
about its event-translation layer.

Modelling conventions:
* Machine floating-point values (`f32`/`f64` positions, sizes, scale factors,
  deltas) are embedded as exact rationals `ℚ`; every claim under study only
  involves divisions that are exact at the relevant inputs.
* Winit's opaque `DeviceId` is embedded as a `ℕ` used only through equality,
  and the `HashMap<DeviceId, u64>` is embedded as an association list in
  insertion order (the map is only used through `get`/`insert`).
* `cfg!(target_os = "macos")` / `#[cfg(target_os = "macos")]` conditional
  compilation is embedded as an explicit `macos : Bool` parameter.
* The clipboard capability (`Option<ClipboardContext>` whose `get_contents`
  may fail) is embedded as `Option String`: `some s` means the capability is
  present and reading it yields `s`; `none` covers an absent capability and a
  failing read alike.
* `eprintln!` diagnostics are embedded as an append-only `stderr` list carried
  alongside the platform state.
-/

namespace EguiWinit

/-- A 2D vector / position, exact-rational stand-in for `egui::Vec2`/`egui::Pos2`. -/
abbrev Vec2 := ℚ × ℚ

/-- Componentwise division of a vector by a scalar (`vec2(x, y) / s` in the source). -/
def vdiv (v : Vec2) (s : ℚ) : Vec2 := (v.1 / s, v.2 / s)

/-- `egui::Rect`, stored as min/max corners. -/
structure Rect where
  min : Vec2
  max : Vec2
deriving DecidableEq

/-- `egui::Rect::from_min_size`. -/
def Rect.from_min_size (min size : Vec2) : Rect :=
  ⟨min, (min.1 + size.1, min.2 + size.2)⟩

/-- The size of a rectangle (`max - min`). -/
def Rect.size (r : Rect) : Vec2 := (r.max.1 - r.min.1, r.max.2 - r.min.2)

/-- `winit::keyboard::ModifiersState` (the four raw modifier flags). -/
structure ModifiersState where
  alt_key : Bool := false
  control_key : Bool := false
  shift_key : Bool := false
  super_key : Bool := false
deriving DecidableEq

/-- `egui::Modifiers`. -/
structure Modifiers where
  alt : Bool := false
  ctrl : Bool := false
  shift : Bool := false
  mac_cmd : Bool := false
  command : Bool := false
deriving DecidableEq

/-- `winit_to_egui_modifiers` from the source; the `#[cfg(target_os = "macos")]`
branches become the `macos` parameter. -/
def winit_to_egui_modifiers (macos : Bool) (modifiers : ModifiersState) : Modifiers :=
  { alt := modifiers.alt_key
    ctrl := modifiers.control_key
    shift := modifiers.shift_key
    mac_cmd := if macos then modifiers.super_key else false
    command := if macos then modifiers.super_key else modifiers.control_key }

/-- The `winit::keyboard::NamedKey` variants that `lib.rs` inspects; every other
named key behaves like `otherNamed`. -/
inductive NamedKey where
  | escape | insert | home | delete | endKey | pageDown | pageUp
  | arrowLeft | arrowUp | arrowRight | arrowDown
  | backspace | enter | tab | space
  | copy | cut | paste
  | otherNamed
deriving DecidableEq

/-- `winit::keyboard::Key`: a named key or a character string (`SmolStr`);
`unidentified` stands for the remaining winit variants, which the source never
matches explicitly. -/
inductive Key where
  | named : NamedKey → Key
  | character : String → Key
  | unidentified : Key
deriving DecidableEq

/-- `egui::Key`, restricted to the image of the source's key table. -/
inductive EguiKey where
  | escape | insert | home | delete | endKey | pageDown | pageUp
  | arrowLeft | arrowUp | arrowRight | arrowDown
  | backspace | enter | tab | space
  | num0 | num1 | num2 | num3 | num4 | num5 | num6 | num7 | num8 | num9
  | a | b | c | d | e | f | g | h | i | j | k | l | m
  | n | o | p | q | r | s | t | u | v | w | x | y | z
deriving DecidableEq

/-- `winit_to_egui_key_code` from the source: named navigation keys plus the
character strings "0"-"9" and "a"-"z" (compared verbatim against lowercase
constants, exactly as in the source); everything else maps to `none`. -/
def winit_to_egui_key_code (key : Key) : Option EguiKey :=
  match key with
  | .named .escape => some .escape
  | .named .insert => some .insert
  | .named .home => some .home
  | .named .delete => some .delete
  | .named .endKey => some .endKey
  | .named .pageDown => some .pageDown
  | .named .pageUp => some .pageUp
  | .named .arrowLeft => some .arrowLeft
  | .named .arrowUp => some .arrowUp
  | .named .arrowRight => some .arrowRight
  | .named .arrowDown => some .arrowDown
  | .named .backspace => some .backspace
  | .named .enter => some .enter
  | .named .tab => some .tab
  | .named .space => some .space
  | .character c =>
    if c = "1" then some .num1 else if c = "2" then some .num2
    else if c = "3" then some .num3 else if c = "4" then some .num4
    else if c = "5" then some .num5 else if c = "6" then some .num6
    else if c = "7" then some .num7 else if c = "8" then some .num8
    else if c = "9" then some .num9 else if c = "0" then some .num0
    else if c = "a" then some .a else if c = "b" then some .b
    else if c = "c" then some .c else if c = "d" then some .d
    else if c = "e" then some .e else if c = "f" then some .f
    else if c = "g" then some .g else if c = "h" then some .h
    else if c = "i" then some .i else if c = "j" then some .j
    else if c = "k" then some .k else if c = "l" then some .l
    else if c = "m" then some .m else if c = "n" then some .n
    else if c = "o" then some .o else if c = "p" then some .p
    else if c = "q" then some .q else if c = "r" then some .r
    else if c = "s" then some .s else if c = "t" then some .t
    else if c = "u" then some .u else if c = "v" then some .v
    else if c = "w" then some .w else if c = "x" then some .x
    else if c = "y" then some .y else if c = "z" then some .z
    else none
  | _ => none

/-- `egui::PointerButton`. -/
inductive PointerButton where
  | primary | secondary | middle | extra1 | extra2
deriving DecidableEq

/-- `winit::event::MouseButton`. -/
inductive MouseButton where
  | left | right | middle | back | forward
  | other : ℕ → MouseButton
deriving DecidableEq

/-- The inner `match button` of the `MouseInput` arm. The `other` case is
unreachable in `handle_event` because `MouseButton::Other` is filtered out
before this match (`unreachable!()` in the source). -/
def mouse_button_to_egui : MouseButton → PointerButton
  | .left => .primary
  | .right => .secondary
  | .middle => .middle
  | .back => .extra1
  | .forward => .extra2
  | .other _ => .primary

/-- `winit::event::TouchPhase`. -/
inductive TouchPhase where
  | started | moved | ended | cancelled
deriving DecidableEq

/-- `egui::TouchPhase`. -/
inductive EguiTouchPhase where
  | start | move | endPhase | cancel
deriving DecidableEq

/-- The phase translation inside the `Touch` arm. -/
def winit_to_egui_touch_phase : TouchPhase → EguiTouchPhase
  | .started => .start
  | .moved => .move
  | .ended => .endPhase
  | .cancelled => .cancel

/-- `winit::event::Force`. -/
inductive Force where
  | calibrated : ℚ → Force
  | normalized : ℚ → Force
deriving DecidableEq

/-- The force extraction inside the `Touch` arm: calibrated or normalized force
passed through; absent force becomes `0.0`. -/
def force_value : Option Force → ℚ
  | some (.calibrated f) => f
  | some (.normalized f) => f
  | none => 0

/-- `winit::event::Touch` (the fields the source reads). `device_id` embeds the
opaque `DeviceId`. -/
structure TouchData where
  device_id : ℕ
  id : ℕ
  phase : TouchPhase
  location : Vec2
  force : Option Force
deriving DecidableEq

/-- `winit::event::ElementState`. -/
inductive ElementState where
  | pressed | released
deriving DecidableEq

/-- `winit::event::KeyEvent` (the fields the source reads). -/
structure KeyEvent where
  state : ElementState
  logical_key : Key
  text : Option String
deriving DecidableEq

/-- `winit::event::Ime`. -/
inductive ImeEvent where
  | enabled
  | preedit : String → ImeEvent
  | commit : String → ImeEvent
  | disabled
deriving DecidableEq

/-- `winit::event::MouseScrollDelta`. -/
inductive ScrollDelta where
  | lineDelta : ℚ → ℚ → ScrollDelta
  | pixelDelta : ℚ → ℚ → ScrollDelta
deriving DecidableEq

/-- The `WindowEvent` variants that `handle_event` matches; `otherWindowEvent`
covers the wildcard `_ => {}` arm. -/
inductive WindowEvent where
  | resized (width height : ℕ)
  | scaleFactorChanged (scale_factor : ℚ)
  | mouseInput (state : ElementState) (button : MouseButton)
  | touch (t : TouchData)
  | mouseWheel (delta : ScrollDelta)
  | cursorMoved (position : Vec2)
  | cursorLeft
  | modifiersChanged (state : ModifiersState)
  | ime (i : ImeEvent)
  | keyboardInput (event : KeyEvent)
  | otherWindowEvent
deriving DecidableEq

/-- `winit::event::Event`: window events, device events (ignored), and the
remaining variants (ignored). -/
inductive WinitEvent where
  | windowEvent (event : WindowEvent)
  | deviceEvent
  | otherEvent
deriving DecidableEq

/-- `egui::Event`, restricted to the variants the source produces. The source
pushes `Zoom((delta.y / 200.0).exp())`; real exponentiation has no executable
rational embedding, so `zoom` records the exponent `delta.y / 200` (exp is
injective, so this is a faithful re-coding of the payload). -/
inductive EguiEvent where
  | pointerButton (pos : Vec2) (button : PointerButton) (pressed : Bool) (modifiers : Modifiers)
  | pointerMoved (pos : Vec2)
  | pointerGone
  | touch (device_id : ℕ) (id : ℕ) (phase : EguiTouchPhase) (pos : Vec2) (force : Option ℚ)
  | scroll (delta : Vec2)
  | zoom (zoomExponent : ℚ)
  | compositionStart
  | compositionUpdate (s : String)
  | compositionEnd (s : String)
  | text (s : String)
  | copy
  | cut
  | key (key : EguiKey) (pressed : Bool) (modifiers : Modifiers) (isRepeat : Bool)
deriving DecidableEq

/-- `egui::RawInput`, restricted to the fields the source touches. -/
structure RawInput where
  screen_rect : Option Rect := none
  time : Option ℚ := none
  modifiers : Modifiers := {}
  events : List EguiEvent := []
deriving DecidableEq

/-- Modelled from the spec: the GUI context (egui's `Context`) is external to
this repository; for `begin_frame` the spec only requires that the current
batch's contents are submitted to it, so we record the sequence of submitted
batches. -/
structure Context where
  submitted : List RawInput := []
deriving DecidableEq

/-- Modelled from the spec: egui's `RawInput::take` "atomically takes ownership
of the current InputBatch's contents (replacing it with an empty batch)"; it
returns the remaining stored value (events emptied) together with the taken
batch. -/
def RawInput.take (r : RawInput) : RawInput × RawInput :=
  ({ r with events := [] }, r)

/-- Modelled from the spec: `Context::begin_frame` consumes one batch per
frame. -/
def Context.begin_frame (c : Context) (input : RawInput) : Context :=
  { submitted := c.submitted ++ [input] }

/-- `PlatformDescriptor` (font and style configuration are opaque pass-through
values that no claim touches, so they are omitted). -/
structure PlatformDescriptor where
  physical_width : ℕ
  physical_height : ℕ
  scale_factor : ℚ
deriving DecidableEq

/-- The `Platform` struct. `device_indices` is the `HashMap<DeviceId, u64>` as
an association list in insertion order; `clipboard` is the clipboard
capability; `stderr` embeds the process's `eprintln!` diagnostics stream (not a
field of the Rust struct, but the only observable effect of the diagnostics
path). -/
structure Platform where
  scale_factor : ℚ
  context : Context
  raw_input : RawInput
  modifier : ModifiersState
  pointer_pos : Option Vec2
  clipboard : Option String
  touch_pointer_pressed : ℕ
  device_indices : List (ℕ × ℕ)
  next_device_index : ℕ
  stderr : List String
deriving DecidableEq

/-- Appending one event to `raw_input.events` (`self.raw_input.events.push(...)`). -/
def Platform.push (p : Platform) (e : EguiEvent) : Platform :=
  { p with raw_input := { p.raw_input with events := p.raw_input.events ++ [e] } }

/-- `Platform::new`. The Rust code initializes the clipboard from the ambient
environment (`ClipboardContext::new().ok()`); here the resulting capability is
passed in. -/
def Platform.new (descriptor : PlatformDescriptor) (clipboard : Option String) : Platform where
  scale_factor := descriptor.scale_factor
  context := {}
  raw_input :=
    { screen_rect := some (Rect.from_min_size (0, 0)
        (vdiv ((descriptor.physical_width : ℚ), (descriptor.physical_height : ℚ))
          descriptor.scale_factor)) }
  modifier := {}
  pointer_pos := some (0, 0)
  clipboard := clipboard
  touch_pointer_pressed := 0
  device_indices := []
  next_device_index := 1
  stderr := []

/-- The diagnostic printed on touch ref-count underflow. -/
def underflowMsg : String :=
  "Pointer emulation error: Unbalanced touch start/stop events from Winit"

/-- `Platform::handle_event`. -/
def Platform.handle_event (p : Platform) (macos : Bool) (winit_event : WinitEvent) : Platform :=
  match winit_event with
  | .windowEvent event =>
    match event with
    -- Resize with 0 width and height signals a minimize on Windows; ignored.
    | .resized 0 0 => p
    | .resized width height =>
      { p with raw_input :=
          { p.raw_input with screen_rect := some (Rect.from_min_size (0, 0)
              (vdiv ((width : ℚ), (height : ℚ)) p.scale_factor)) } }
    | .scaleFactorChanged scale_factor =>
      { p with scale_factor := scale_factor }
    | .mouseInput state button =>
      match button with
      | .other _ => p
      | button =>
        -- push event only if the cursor is inside the window
        match p.pointer_pos with
        | some pointer_pos =>
          p.push (.pointerButton pointer_pos (mouse_button_to_egui button)
            (state == .pressed) {})
        | none => p
    | .touch touch =>
      let pointer_pos := vdiv touch.location p.scale_factor
      let (device_id, p) :=
        match p.device_indices.lookup touch.device_id with
        | some id => (id, p)
        | none =>
          let device_id := p.next_device_index
          (device_id,
            { p with
                device_indices := p.device_indices ++ [(touch.device_id, device_id)]
                next_device_index := p.next_device_index + 1 })
      let egui_phase := winit_to_egui_touch_phase touch.phase
      let force := force_value touch.force
      let p := p.push (.touch device_id touch.id egui_phase pointer_pos (some force))
      -- Merge all touch pointers into a single virtual pointer and ref-count
      -- the press state.
      let was_pressed := p.touch_pointer_pressed != 0
      let p :=
        match touch.phase with
        | .started => { p with touch_pointer_pressed := p.touch_pointer_pressed + 1 }
        | .ended | .cancelled =>
          match p.touch_pointer_pressed with
          | Nat.succ count => { p with touch_pointer_pressed := count }
          | 0 => { p with touch_pointer_pressed := 0, stderr := p.stderr ++ [underflowMsg] }
        | .moved => p.push (.pointerMoved pointer_pos)
      if !was_pressed && p.touch_pointer_pressed != 0 then
        p.push (.pointerButton pointer_pos .primary true {})
      else if was_pressed && p.touch_pointer_pressed == 0 then
        -- Egui docs say that the pressed=false should be sent before PointerGone.
        (p.push (.pointerButton pointer_pos .primary false {})).push .pointerGone
      else p
    | .mouseWheel delta =>
      let d : Vec2 :=
        match delta with
        | .lineDelta x y => (x * 8, y * 8)
        | .pixelDelta x y => (x, y)
      let d : Vec2 := if macos then (-d.1, d.2) else d
      -- The ctrl (cmd on macos) key indicates a zoom is desired.
      if p.raw_input.modifiers.ctrl || p.raw_input.modifiers.command then
        p.push (.zoom (d.2 / 200))
      else
        p.push (.scroll d)
    | .cursorMoved position =>
      let pointer_pos := vdiv position p.scale_factor
      let p := { p with pointer_pos := some pointer_pos }
      p.push (.pointerMoved pointer_pos)
    | .cursorLeft =>
      let p := { p with pointer_pos := none }
      p.push .pointerGone
    | .modifiersChanged input =>
      { p with modifier := input, raw_input := { p.raw_input with modifiers := winit_to_egui_modifiers macos input } }
    | .ime i =>
      match i with
      | .enabled => p.push .compositionStart
      | .preedit s => p.push (.compositionUpdate s)
      | .commit s => (p.push (.compositionEnd s)).push .compositionStart
      | .disabled => p.push (.compositionEnd "")
    | .keyboardInput event =>
      let pressed := event.state == .pressed
      let fallback : Platform :=
        match event.logical_key with
        | .named .copy => p.push .copy
        | .named .cut => p.push .cut
        | .named .paste =>
          match p.clipboard with
          | some contents => p.push (.text contents)
          | none => p
        | k =>
          match winit_to_egui_key_code k with
          | some key =>
            p.push (.key key pressed (winit_to_egui_modifiers macos p.modifier) false)
          | none => p
      match event.text with
      | some text => if text.utf8ByteSize > 1 then p.push (.text text) else fallback
      | none => fallback
    | .otherWindowEvent => p
  | .deviceEvent => p
  | .otherEvent => p

/-- `begin_frame`: `self.context.begin_frame(self.raw_input.take())`. -/
def Platform.begin_frame (p : Platform) : Platform :=
  let taken := p.raw_input.take
  { p with raw_input := taken.1, context := p.context.begin_frame taken.2 }

/-- `update_time`. -/
def Platform.update_time (p : Platform) (elapsed_seconds : ℚ) : Platform :=
  { p with raw_input := { p.raw_input with time := some elapsed_seconds } }

/-- Folding `handle_event` over a sequence of events. -/
def processEvents (macos : Bool) (p : Platform) (es : List WinitEvent) : Platform :=
  es.foldl (fun acc e => acc.handle_event macos e) p

end EguiWinit

namespace EguiWinit

/-! ## Derived descriptions of the touch arm, used by several proofs -/

/-- The dense device index used for a touch event: the table entry when the
opaque identifier was seen before, else the next free index. -/
def touchDeviceIndex (p : Platform) (t : TouchData) : ℕ :=
  (p.device_indices.lookup t.device_id).getD p.next_device_index

/-- The raw `egui::Event::Touch` that every touch event pushes. -/
def rawTouchEvent (p : Platform) (t : TouchData) : EguiEvent :=
  .touch (touchDeviceIndex p t) t.id (winit_to_egui_touch_phase t.phase)
    (vdiv t.location p.scale_factor) (some (force_value t.force))

/-- How one touch event transforms the live contact count (start increments,
end/cancel decrements clamping at zero, move leaves it unchanged). -/
def touchStepCount (c : ℕ) (ph : TouchPhase) : ℕ :=
  match ph with
  | .started => c + 1
  | .moved => c
  | .ended => c - 1
  | .cancelled => c - 1

/-- The pointer-emulation events one touch event pushes after the raw touch
event, as a function of the prior contact count `c` and the phase. -/
def touchEmitted (c : ℕ) (pos : Vec2) (ph : TouchPhase) : List EguiEvent :=
  (if ph = .moved then [.pointerMoved pos] else [])
    ++ (if ph = .started ∧ c = 0 then [.pointerButton pos .primary true {}] else [])
    ++ (if (ph = .ended ∨ ph = .cancelled) ∧ c = 1 then
          [.pointerButton pos .primary false {}, .pointerGone] else [])

/-- Full characterization of `handle_event` on a touch event. -/
theorem handle_touch_eq (p : Platform) (macos : Bool) (t : TouchData) :
    p.handle_event macos (.windowEvent (.touch t)) =
      { p with
          raw_input := { p.raw_input with
            events := p.raw_input.events
              ++ rawTouchEvent p t
                :: touchEmitted p.touch_pointer_pressed (vdiv t.location p.scale_factor) t.phase }
          touch_pointer_pressed := touchStepCount p.touch_pointer_pressed t.phase
          device_indices := p.device_indices
            ++ (if (p.device_indices.lookup t.device_id).isSome then []
                else [(t.device_id, p.next_device_index)])
          next_device_index := p.next_device_index
            + (if (p.device_indices.lookup t.device_id).isSome then 0 else 1)
          stderr := p.stderr
            ++ (if (t.phase = .ended ∨ t.phase = .cancelled) ∧ p.touch_pointer_pressed = 0 then
                  [underflowMsg] else []) } := by
  rcases t with ⟨d, i, ph, loc, f⟩
  unfold Platform.handle_event
  rcases hl : p.device_indices.lookup d with _ | id <;>
    rcases ph with _ | _ | _ | _ <;>
      rcases hc : p.touch_pointer_pressed with _ | _ | c <;>
        simp [hl, hc, Platform.push, rawTouchEvent, touchDeviceIndex, touchEmitted,
          touchStepCount, winit_to_egui_touch_phase]

end EguiWinit

namespace EguiWinit

/-! ## Concrete fixtures for witnesses and counterexamples -/

/-- A concrete descriptor: 800x600 physical pixels at scale factor 2. -/
def desc0 : PlatformDescriptor := ⟨800, 600, 2⟩

/-- A concrete touch-start contact at physical position (100, 100). -/
def touchStart7 : TouchData := ⟨7, 3, .started, (100, 100), none⟩

/-- A concrete touch-end contact. -/
def touchEnd7 : TouchData := ⟨7, 3, .ended, (100, 100), none⟩

/-- A platform that has observed a modifiers-change to ctrl-held. -/
def pCtrl : Platform :=
  (Platform.new desc0 none).handle_event false
    (.windowEvent (.modifiersChanged { control_key := true }))

/-! ## Claim theorems -/

/-- C4 counterexample: resizing to physical (800, 600) while the scale factor
is 2.0 sets the screen rectangle to logical size (400, 300), not (400, 600) as
the claim states. -/
theorem resize_800_600_scale2_cex :
    (((Platform.new desc0 none).handle_event false
        (.windowEvent (.resized 800 600))).raw_input.screen_rect.map Rect.size)
      = some (400, 300)
    ∧ ((400 : ℚ), (300 : ℚ)) ≠ ((400 : ℚ), (600 : ℚ)) := by
  refine ⟨?_, by norm_num⟩
  simp [Platform.handle_event, Platform.new, desc0, vdiv, Rect.from_min_size, Rect.size]
  norm_num

/-- C4 (amended): a resize to (w, h) with w, h > 0 recomputes the screen
rectangle as (w, h) divided by the current scale factor with origin fixed at
zero; in particular physical (800, 600) at scale factor 2.0 yields logical size
(400, 300). -/
theorem resize_recomputes_rect (macos : Bool) (p : Platform) (w h : ℕ)
    (hw : 0 < w) (hh : 0 < h) :
    (p.handle_event macos (.windowEvent (.resized w h))).raw_input.screen_rect
      = some (Rect.from_min_size (0, 0) (vdiv ((w : ℚ), (h : ℚ)) p.scale_factor))
    ∧ (Rect.from_min_size (0, 0) (vdiv ((w : ℚ), (h : ℚ)) p.scale_factor)).min = (0, 0)
    ∧ Rect.size (Rect.from_min_size (0, 0) (vdiv ((w : ℚ), (h : ℚ)) p.scale_factor))
        = vdiv ((w : ℚ), (h : ℚ)) p.scale_factor := by
  rcases w with _ | w
  · omega
  rcases h with _ | h
  · omega
  refine ⟨rfl, rfl, ?_⟩
  simp [Rect.size, Rect.from_min_size]

/-- Witness for `resize_recomputes_rect` at the concrete resize (800, 600). -/
theorem resize_recomputes_rect_witness :
    ((Platform.new desc0 none).handle_event false
        (.windowEvent (.resized 800 600))).raw_input.screen_rect
      = some (Rect.from_min_size (0, 0)
          (vdiv ((800 : ℚ), (600 : ℚ)) (Platform.new desc0 none).scale_factor))
    ∧ (Rect.from_min_size (0, 0)
          (vdiv ((800 : ℚ), (600 : ℚ)) (Platform.new desc0 none).scale_factor)).min = (0, 0)
    ∧ Rect.size (Rect.from_min_size (0, 0)
          (vdiv ((800 : ℚ), (600 : ℚ)) (Platform.new desc0 none).scale_factor))
        = vdiv ((800 : ℚ), (600 : ℚ)) (Platform.new desc0 none).scale_factor :=
  resize_recomputes_rect false (Platform.new desc0 none) 800 600 (by decide) (by decide)

/-- C5: `begin_frame` submits exactly the accumulated batch to the GUI context
and replaces it with an empty one; a second `begin_frame` with no intervening
events submits a batch with no events. -/
theorem begin_frame_drains (p : Platform) :
    (p.begin_frame).context.submitted = p.context.submitted ++ [p.raw_input]
    ∧ (p.begin_frame).raw_input.events = []
    ∧ (p.begin_frame).begin_frame.context.submitted
        = p.context.submitted ++ [p.raw_input, { p.raw_input with events := [] }] := by
  refine ⟨rfl, rfl, ?_⟩
  simp [Platform.begin_frame, Context.begin_frame, RawInput.take]

/-- C9 counterexample: a touch-start that does emulate a pointer press (at
logical position (50, 50)) leaves the stored pointer position unchanged at
(0, 0) instead of mutating it. -/
theorem touch_does_not_move_pointer_cex :
    ((Platform.new desc0 none).handle_event false
        (.windowEvent (.touch touchStart7))).pointer_pos = some (0, 0)
    ∧ EguiEvent.pointerButton (50, 50) .primary true {}
        ∈ ((Platform.new desc0 none).handle_event false
            (.windowEvent (.touch touchStart7))).raw_input.events
    ∧ some ((50 : ℚ), (50 : ℚ)) ≠ some ((0 : ℚ), (0 : ℚ)) := by
  rw [handle_touch_eq]
  refine ⟨rfl, ?_, by norm_num⟩
  simp [Platform.new, desc0, touchStart7, touchEmitted, touchStepCount, vdiv, rawTouchEvent]
  norm_num

/-- C9 (amended): cursor-move events set the stored pointer position (to the
physical position divided by the scale factor), cursor-leave events clear it to
absent, and touch events never mutate it (pointer emulation uses the touch
location directly). -/
theorem pointer_pos_mutation (macos : Bool) (p : Platform) (position : Vec2)
    (t : TouchData) :
    ((p.handle_event macos (.windowEvent (.cursorMoved position))).pointer_pos
        = some (vdiv position p.scale_factor))
    ∧ ((p.handle_event macos (.windowEvent .cursorLeft)).pointer_pos = none)
    ∧ ((p.handle_event macos (.windowEvent (.touch t))).pointer_pos = p.pointer_pos) := by
  refine ⟨rfl, rfl, ?_⟩
  rw [handle_touch_eq]

/-- C10: immediately after construction the stored pointer position is present
and equal to (0, 0), and a recognized mouse-button event handled before any
cursor event is emitted as a pointer-button event at position (0, 0). -/
theorem initial_pointer_pos_mouse (macos : Bool) (desc : PlatformDescriptor)
    (clip : Option String) (state : ElementState) (button : MouseButton)
    (hb : ∀ n, button ≠ .other n) :
    (Platform.new desc clip).pointer_pos = some (0, 0)
    ∧ ((Platform.new desc clip).handle_event macos
          (.windowEvent (.mouseInput state button))).raw_input.events
        = [.pointerButton (0, 0) (mouse_button_to_egui button) (state == .pressed) {}] := by
  refine ⟨rfl, ?_⟩
  cases button with
  | other n => exact absurd rfl (hb n)
  | left => rfl
  | right => rfl
  | middle => rfl
  | back => rfl
  | forward => rfl

/-- Witness for `initial_pointer_pos_mouse` with the left mouse button. -/
theorem initial_pointer_pos_mouse_witness :
    (Platform.new desc0 none).pointer_pos = some (0, 0)
    ∧ ((Platform.new desc0 none).handle_event false
          (.windowEvent (.mouseInput .pressed .left))).raw_input.events
        = [.pointerButton (0, 0) (mouse_button_to_egui .left)
            (ElementState.pressed == .pressed) {}] :=
  initial_pointer_pos_mouse false desc0 none .pressed .left
    (fun _ h => MouseButton.noConfusion h)

/-- C6: a touch-end (or cancel) arriving while the contact count is zero clamps
the count at zero, appends exactly one diagnostic line to stderr, and appends
only the raw touch event to the batch — in particular no
pointer-button(pressed=false) is emitted. -/
theorem touch_underflow_clamped (macos : Bool) (p : Platform) (t : TouchData)
    (hc : p.touch_pointer_pressed = 0)
    (hp : t.phase = .ended ∨ t.phase = .cancelled) :
    ((p.handle_event macos (.windowEvent (.touch t))).touch_pointer_pressed = 0)
    ∧ ((p.handle_event macos (.windowEvent (.touch t))).stderr
        = p.stderr ++ [underflowMsg])
    ∧ ((p.handle_event macos (.windowEvent (.touch t))).raw_input.events
        = p.raw_input.events ++ [rawTouchEvent p t]) := by
  rw [handle_touch_eq]
  rcases hp with hp | hp <;> simp [hp, hc, touchEmitted, touchStepCount]

/-- Witness for `touch_underflow_clamped` at a freshly constructed platform. -/
theorem touch_underflow_clamped_witness :
    (((Platform.new desc0 none).handle_event false
        (.windowEvent (.touch touchEnd7))).touch_pointer_pressed = 0)
    ∧ (((Platform.new desc0 none).handle_event false
        (.windowEvent (.touch touchEnd7))).stderr
        = (Platform.new desc0 none).stderr ++ [underflowMsg])
    ∧ (((Platform.new desc0 none).handle_event false
        (.windowEvent (.touch touchEnd7))).raw_input.events
        = (Platform.new desc0 none).raw_input.events
          ++ [rawTouchEvent (Platform.new desc0 none) touchEnd7]) :=
  touch_underflow_clamped false (Platform.new desc0 none) touchEnd7 rfl (Or.inl rfl)

end EguiWinit

namespace EguiWinit

/-- C1 counterexample: a keyboard event whose literal text is the two control
characters U+0001 U+0002, with no modifier held, does produce a text event
carrying exactly that text — the code filters only on UTF-8 byte length, not on
control characters, private-use code points or modifiers. -/
theorem keyboard_text_control_chars_cex :
    ((Platform.new desc0 none).handle_event false
        (.windowEvent (.keyboardInput ⟨.pressed, .character "a", some "\x01\x02"⟩))).raw_input.events
      = [.text "\x01\x02"]
    ∧ (Platform.new desc0 none).modifier = {} := by
  constructor
  · simp only [Platform.handle_event]
    rw [if_pos (by decide)]
    rfl
  · rfl

/-- C1 (amended): `handle_event` appends a text event carrying the event's
literal text if and only if the event carries literal text whose UTF-8 encoding
is longer than one byte; the text's content (control characters, private-use
code points) and the modifier state are not consulted, and when the text is
absent or at most one byte no text event is appended — unless the logical key
is the dedicated named Paste key, which emits clipboard contents instead. -/
theorem keyboard_text_amended (macos : Bool) (p : Platform) (k : KeyEvent) :
    (∀ s, k.text = some s → 1 < s.utf8ByteSize →
        (p.handle_event macos (.windowEvent (.keyboardInput k))).raw_input.events
          = p.raw_input.events ++ [.text s])
    ∧ ((∀ s, k.text = some s → s.utf8ByteSize ≤ 1) → k.logical_key ≠ .named .paste →
        ∀ s, EguiEvent.text s ∉
          ((p.handle_event macos (.windowEvent (.keyboardInput k))).raw_input.events.drop
            p.raw_input.events.length)) := by
  constructor
  · intro s hs hlen
    rcases k with ⟨st, lk, txt⟩
    simp only at hs
    subst hs
    simp [Platform.handle_event, hlen, Platform.push]
  · intro hle hkey s
    rcases k with ⟨st, lk, txt⟩
    simp only at hle hkey
    rcases txt with _ | s'
    · simp only [Platform.handle_event]
      split
      · simp [Platform.push, List.drop_left]
      · simp [Platform.push, List.drop_left]
      · exact absurd rfl hkey
      · split <;> simp [Platform.push, List.drop_left, List.drop_length]
    · have h1 : s'.utf8ByteSize ≤ 1 := hle s' rfl
      simp only [Platform.handle_event]
      rw [if_neg (by omega)]
      split
      · simp [Platform.push, List.drop_left]
      · simp [Platform.push, List.drop_left]
      · exact absurd rfl hkey
      · split <;> simp [Platform.push, List.drop_left, List.drop_length]

/-- Witness for `keyboard_text_amended`: the two-byte text "ab" is emitted
verbatim. -/
theorem keyboard_text_amended_witness :
    ((Platform.new desc0 none).handle_event false
        (.windowEvent (.keyboardInput ⟨.pressed, .character "a", some "ab"⟩))).raw_input.events
      = (Platform.new desc0 none).raw_input.events ++ [.text "ab"] :=
  (keyboard_text_amended false (Platform.new desc0 none)
    ⟨.pressed, .character "a", some "ab"⟩).1 "ab" rfl (by decide)

/-- C2 counterexample: with ctrl held, pressing the "c" character key emits a
key event for C (with the live ctrl modifier) and no copy event — the
copy/cut/paste arms match only the dedicated named Copy/Cut/Paste keys, never
the ctrl-C/X/V chords. -/
theorem ctrl_c_no_copy_cex :
    pCtrl.modifier.control_key = true
    ∧ (pCtrl.handle_event false
        (.windowEvent (.keyboardInput ⟨.pressed, .character "c", none⟩))).raw_input.events
      = [.key .c true { ctrl := true, command := true } false]
    ∧ EguiEvent.copy ∉ (pCtrl.handle_event false
        (.windowEvent (.keyboardInput ⟨.pressed, .character "c", none⟩))).raw_input.events := by
  refine ⟨rfl, ?_, ?_⟩
  · simp [pCtrl, Platform.handle_event, Platform.new, desc0, Platform.push,
      winit_to_egui_key_code, winit_to_egui_modifiers]
  · simp [pCtrl, Platform.handle_event, Platform.new, desc0, Platform.push,
      winit_to_egui_key_code, winit_to_egui_modifiers]

/-- C2 (amended): a keyboard event whose logical key is the dedicated named
Copy key (and which carries no text longer than one UTF-8 byte) appends exactly
a copy event — no text or key event — regardless of modifier state and
press/release state; likewise named Cut appends a cut event, and named Paste
appends the clipboard capability's text as a text event (nothing when the
capability is absent or fails). -/
theorem copy_cut_paste_amended (macos : Bool) (p : Platform) (st : ElementState)
    (txt : Option String) (hle : ∀ s, txt = some s → s.utf8ByteSize ≤ 1) :
    ((p.handle_event macos (.windowEvent (.keyboardInput ⟨st, .named .copy, txt⟩))).raw_input.events
        = p.raw_input.events ++ [.copy])
    ∧ ((p.handle_event macos (.windowEvent (.keyboardInput ⟨st, .named .cut, txt⟩))).raw_input.events
        = p.raw_input.events ++ [.cut])
    ∧ ((p.handle_event macos (.windowEvent (.keyboardInput ⟨st, .named .paste, txt⟩))).raw_input.events
        = p.raw_input.events
          ++ (match p.clipboard with | some contents => [.text contents] | none => [])) := by
  rcases txt with _ | s
  · refine ⟨rfl, rfl, ?_⟩
    simp only [Platform.handle_event]
    rcases p.clipboard with _ | c <;> simp [Platform.push]
  · have h1 : s.utf8ByteSize ≤ 1 := hle s rfl
    refine ⟨?_, ?_, ?_⟩ <;>
      · simp only [Platform.handle_event]
        rw [if_neg (by omega)]
        try rcases hcl : p.clipboard with _ | c
        all_goals simp [Platform.push, hcl]

/-- Witness for `copy_cut_paste_amended` on a platform whose clipboard reads
"clip". -/
theorem copy_cut_paste_amended_witness :
    (((Platform.new desc0 (some "clip")).handle_event false
        (.windowEvent (.keyboardInput ⟨.pressed, .named .copy, none⟩))).raw_input.events
        = (Platform.new desc0 (some "clip")).raw_input.events ++ [.copy])
    ∧ (((Platform.new desc0 (some "clip")).handle_event false
        (.windowEvent (.keyboardInput ⟨.pressed, .named .cut, none⟩))).raw_input.events
        = (Platform.new desc0 (some "clip")).raw_input.events ++ [.cut])
    ∧ (((Platform.new desc0 (some "clip")).handle_event false
        (.windowEvent (.keyboardInput ⟨.pressed, .named .paste, none⟩))).raw_input.events
        = (Platform.new desc0 (some "clip")).raw_input.events
          ++ (match (Platform.new desc0 (some "clip")).clipboard with
              | some contents => [.text contents] | none => [])) :=
  copy_cut_paste_amended false (Platform.new desc0 (some "clip")) .pressed none
    (fun _ h => Option.noConfusion h)

end EguiWinit

namespace EguiWinit

/-! ## Touch-to-pointer emulation: press/release edge counting (C3) -/

/-- Recognizer for the emulated primary pointer press event. -/
def isEmulatedPress : EguiEvent → Bool
  | .pointerButton _ .primary true _ => true
  | _ => false

/-- Recognizer for the emulated primary pointer release event. -/
def isEmulatedRelease : EguiEvent → Bool
  | .pointerButton _ .primary false _ => true
  | _ => false

/-- Number of 0-to-1 crossings of the contact count along a phase sequence. -/
def risingEdges : ℕ → List TouchPhase → ℕ
  | _, [] => 0
  | c, ph :: rest =>
      (if ph = .started ∧ c = 0 then 1 else 0) + risingEdges (touchStepCount c ph) rest

/-- Number of 1-to-0 crossings of the contact count along a phase sequence. -/
def fallingEdges : ℕ → List TouchPhase → ℕ
  | _, [] => 0
  | c, ph :: rest =>
      (if (ph = .ended ∨ ph = .cancelled) ∧ c = 1 then 1 else 0)
        + fallingEdges (touchStepCount c ph) rest

/-- One touch event transforms the contact count by `touchStepCount`. -/
theorem handle_touch_count (p : Platform) (macos : Bool) (t : TouchData) :
    (p.handle_event macos (.windowEvent (.touch t))).touch_pointer_pressed
      = touchStepCount p.touch_pointer_pressed t.phase := by
  rw [handle_touch_eq]

/-- Press events in the emitted block: one exactly on a rising edge. -/
theorem countP_touchEmitted_press (c : ℕ) (pos : Vec2) (ph : TouchPhase) :
    (touchEmitted c pos ph).countP isEmulatedPress
      = if ph = .started ∧ c = 0 then 1 else 0 := by
  unfold touchEmitted
  split_ifs <;> simp_all [isEmulatedPress, List.countP_append, List.countP_cons]

/-- Release events in the emitted block: one exactly on a falling edge. -/
theorem countP_touchEmitted_release (c : ℕ) (pos : Vec2) (ph : TouchPhase) :
    (touchEmitted c pos ph).countP isEmulatedRelease
      = if (ph = .ended ∨ ph = .cancelled) ∧ c = 1 then 1 else 0 := by
  unfold touchEmitted
  split_ifs <;> simp_all [isEmulatedRelease, List.countP_append, List.countP_cons]

/-- Handling one touch event adds one press to the batch exactly on a rising
edge of the contact count. -/
theorem countPress_handle_touch (p : Platform) (macos : Bool) (t : TouchData) :
    ((p.handle_event macos (.windowEvent (.touch t))).raw_input.events).countP isEmulatedPress
      = (p.raw_input.events).countP isEmulatedPress
        + (if t.phase = .started ∧ p.touch_pointer_pressed = 0 then 1 else 0) := by
  rw [handle_touch_eq]
  simp [List.countP_append, List.countP_cons, countP_touchEmitted_press,
    rawTouchEvent, isEmulatedPress]

/-- Handling one touch event adds one release to the batch exactly on a falling
edge of the contact count. -/
theorem countRelease_handle_touch (p : Platform) (macos : Bool) (t : TouchData) :
    ((p.handle_event macos (.windowEvent (.touch t))).raw_input.events).countP isEmulatedRelease
      = (p.raw_input.events).countP isEmulatedRelease
        + (if (t.phase = .ended ∨ t.phase = .cancelled) ∧ p.touch_pointer_pressed = 1
            then 1 else 0) := by
  rw [handle_touch_eq]
  simp [List.countP_append, List.countP_cons, countP_touchEmitted_release,
    rawTouchEvent, isEmulatedRelease]

/-- Unfolding lemma for `processEvents`. -/
theorem processEvents_cons (macos : Bool) (p : Platform) (e : WinitEvent)
    (es : List WinitEvent) :
    processEvents macos p (e :: es) = processEvents macos (p.handle_event macos e) es := rfl

/-- C3: over any sequence of touch events, the emulated pointer press is
emitted exactly once per 0-to-1 crossing of the live contact count and the
release exactly once per 1-to-0 crossing; moreover a touch event arriving while
the count is already nonzero never adds a press event. -/
theorem touch_pointer_edges (macos : Bool) (p : Platform) (ts : List TouchData) :
    (((processEvents macos p (ts.map (fun t => .windowEvent (.touch t)))).raw_input.events).countP
          isEmulatedPress
        = (p.raw_input.events).countP isEmulatedPress
          + risingEdges p.touch_pointer_pressed (ts.map (·.phase)))
    ∧ (((processEvents macos p (ts.map (fun t => .windowEvent (.touch t)))).raw_input.events).countP
          isEmulatedRelease
        = (p.raw_input.events).countP isEmulatedRelease
          + fallingEdges p.touch_pointer_pressed (ts.map (·.phase)))
    ∧ (∀ t : TouchData, p.touch_pointer_pressed ≠ 0 →
        ((p.handle_event macos (.windowEvent (.touch t))).raw_input.events).countP isEmulatedPress
          = (p.raw_input.events).countP isEmulatedPress) := by
  refine ⟨?_, ?_, ?_⟩
  · induction ts generalizing p with
    | nil => simp [processEvents, risingEdges]
    | cons t ts ih =>
        simp only [List.map_cons, processEvents_cons]
        rw [ih, countPress_handle_touch, handle_touch_count]
        simp only [risingEdges]
        omega
  · induction ts generalizing p with
    | nil => simp [processEvents, fallingEdges]
    | cons t ts ih =>
        simp only [List.map_cons, processEvents_cons]
        rw [ih, countRelease_handle_touch, handle_touch_count]
        simp only [fallingEdges]
        omega
  · intro t hc
    rw [countPress_handle_touch]
    simp [hc]

/-- A platform holding one live touch contact. -/
def pTouch1 : Platform :=
  (Platform.new desc0 none).handle_event false (.windowEvent (.touch touchStart7))

/-- Witness for `touch_pointer_edges`: one live contact, then a touch-end. -/
theorem touch_pointer_edges_witness :
    (((processEvents false pTouch1 ([touchEnd7].map (fun t => .windowEvent (.touch t)))).raw_input.events).countP
          isEmulatedPress
        = (pTouch1.raw_input.events).countP isEmulatedPress
          + risingEdges pTouch1.touch_pointer_pressed ([touchEnd7].map (·.phase)))
    ∧ ((pTouch1.handle_event false (.windowEvent (.touch touchEnd7))).raw_input.events).countP
          isEmulatedPress
        = (pTouch1.raw_input.events).countP isEmulatedPress :=
  ⟨(touch_pointer_edges false pTouch1 [touchEnd7]).1,
   (touch_pointer_edges false pTouch1 [touchEnd7]).2.2 touchEnd7 (by decide)⟩

/-! ## Release-before-gone ordering (C7) -/

/-- In the block a touch event appends, any pointer-gone occurrence is directly
preceded by the primary release at the same position. -/
theorem gone_preceded_in_block (c : ℕ) (pos : Vec2) (ph : TouchPhase) (raw : EguiEvent)
    (hraw : raw ≠ .pointerGone) (i : ℕ)
    (h : (raw :: touchEmitted c pos ph)[i]? = some .pointerGone) :
    1 ≤ i ∧ (raw :: touchEmitted c pos ph)[i - 1]?
      = some (.pointerButton pos .primary false {}) := by
  unfold touchEmitted at h ⊢
  rcases ph <;> rcases c with _ | _ | c <;>
    simp only [reduceIte] at h ⊢ <;>
    rcases i with _ | _ | _ | i <;> simp_all

/-- C7: whenever handling a touch event appends a pointer-gone event, the
matching pointer-button(pressed=false) appears at the directly preceding index
of the appended block — the release is emitted strictly before pointer-gone. -/
theorem touch_release_before_gone (macos : Bool) (p : Platform) (t : TouchData) (i : ℕ)
    (h : ((p.handle_event macos (.windowEvent (.touch t))).raw_input.events.drop
            p.raw_input.events.length)[i]? = some .pointerGone) :
    1 ≤ i ∧
    ((p.handle_event macos (.windowEvent (.touch t))).raw_input.events.drop
        p.raw_input.events.length)[i - 1]?
      = some (.pointerButton (vdiv t.location p.scale_factor) .primary false {}) := by
  rw [handle_touch_eq] at h ⊢
  simp only [List.drop_left] at h ⊢
  exact gone_preceded_in_block _ _ _ _ (by simp [rawTouchEvent]) i h

/-- Witness for `touch_release_before_gone`: the 1-to-0 touch-end emits
[touch, release, gone], with gone at index 2 preceded by the release. -/
theorem touch_release_before_gone_witness :
    1 ≤ 2 ∧
    ((pTouch1.handle_event false (.windowEvent (.touch touchEnd7))).raw_input.events.drop
        pTouch1.raw_input.events.length)[2 - 1]?
      = some (.pointerButton (vdiv touchEnd7.location pTouch1.scale_factor) .primary false {}) :=
  touch_release_before_gone false pTouch1 touchEnd7 2 (by decide)

end EguiWinit

namespace EguiWinit

/-! ## Device index table (C8) -/

/-- An association-list lookup survives appending entries on the right. -/
theorem lookup_append_some {l₁ : List (ℕ × ℕ)} (l₂ : List (ℕ × ℕ)) {d n : ℕ}
    (h : l₁.lookup d = some n) : (l₁ ++ l₂).lookup d = some n := by
  induction l₁ with
  | nil => simp [List.lookup] at h
  | cons a l ih =>
      rcases a with ⟨k, v⟩
      cases hk : (d == k)
      · simp only [List.cons_append, List.lookup, hk] at h ⊢
        exact ih h
      · simp only [List.cons_append, List.lookup, hk] at h ⊢
        exact h

/-- A failed lookup means the key is absent from the key column. -/
theorem lookup_eq_none_not_mem {l : List (ℕ × ℕ)} {d : ℕ}
    (h : l.lookup d = none) : d ∉ l.map Prod.fst := by
  induction l with
  | nil => simp
  | cons a l ih =>
      rcases a with ⟨k, v⟩
      cases hk : (d == k)
      · simp only [List.lookup, hk] at h
        simp only [List.map_cons, List.mem_cons]
        rintro (rfl | hm)
        · simp at hk
        · exact ih h hm
      · simp [List.lookup, hk] at h

/-- Every event either leaves the device table and counter untouched, or (a
touch from an unseen device) appends exactly one entry carrying the current
counter value and increments the counter. -/
theorem handle_event_device_table (p : Platform) (macos : Bool) (e : WinitEvent) :
    ((p.handle_event macos e).device_indices = p.device_indices
      ∧ (p.handle_event macos e).next_device_index = p.next_device_index)
    ∨ (∃ d, p.device_indices.lookup d = none
        ∧ (p.handle_event macos e).device_indices
            = p.device_indices ++ [(d, p.next_device_index)]
        ∧ (p.handle_event macos e).next_device_index = p.next_device_index + 1) := by
  rcases e with ev | _ | _
  case deviceEvent => exact Or.inl ⟨rfl, rfl⟩
  case otherEvent => exact Or.inl ⟨rfl, rfl⟩
  cases ev
  case resized w h =>
    refine Or.inl ⟨?_, ?_⟩ <;> (rcases w with _ | w <;> rcases h with _ | h <;> rfl)
  case scaleFactorChanged s => exact Or.inl ⟨rfl, rfl⟩
  case mouseInput st b =>
    refine Or.inl ⟨?_, ?_⟩ <;>
      (cases b <;> rcases hpp : p.pointer_pos with _ | q <;>
        simp [Platform.handle_event, Platform.push, hpp])
  case touch t =>
    rcases hl : p.device_indices.lookup t.device_id with _ | id
    · refine Or.inr ⟨t.device_id, hl, ?_, ?_⟩ <;> (rw [handle_touch_eq]; simp [hl])
    · refine Or.inl ⟨?_, ?_⟩ <;> (rw [handle_touch_eq]; simp [hl])
  case mouseWheel delta =>
    refine Or.inl ⟨?_, ?_⟩ <;>
      (rcases delta with ⟨x, y⟩ | ⟨x, y⟩ <;>
        cases hb : (p.raw_input.modifiers.ctrl || p.raw_input.modifiers.command) <;>
        cases macos <;>
        simp [Platform.handle_event, Platform.push, hb])
  case cursorMoved pos => exact Or.inl ⟨rfl, rfl⟩
  case cursorLeft => exact Or.inl ⟨rfl, rfl⟩
  case modifiersChanged m => exact Or.inl ⟨rfl, rfl⟩
  case ime i =>
    refine Or.inl ⟨?_, ?_⟩ <;> (cases i <;> rfl)
  case otherWindowEvent => exact Or.inl ⟨rfl, rfl⟩
  case keyboardInput k =>
    rcases k with ⟨st, lk, txt⟩
    refine Or.inl ⟨?_, ?_⟩ <;>
      (rcases txt with _ | s' <;>
        simp only [Platform.handle_event] <;>
        split <;> first | rfl | (split <;> first | rfl | (split <;> rfl)))

/-- One event never changes or removes an existing table entry. -/
theorem handle_event_lookup_mono (p : Platform) (macos : Bool) (e : WinitEvent)
    {d n : ℕ} (h : p.device_indices.lookup d = some n) :
    (p.handle_event macos e).device_indices.lookup d = some n := by
  rcases handle_event_device_table p macos e with ⟨h1, _⟩ | ⟨d', _, h1, _⟩ <;> rw [h1]
  · exact h
  · exact lookup_append_some _ h

/-- No event sequence changes or removes an existing table entry. -/
theorem processEvents_lookup_mono (macos : Bool) (es : List WinitEvent) :
    ∀ (q : Platform) {d n : ℕ}, q.device_indices.lookup d = some n →
      (processEvents macos q es).device_indices.lookup d = some n := by
  induction es with
  | nil => exact fun q _ _ h => h
  | cons e es ih =>
      intro q d n h
      exact ih _ (handle_event_lookup_mono q macos e h)

/-- Invariant of the device index table: dense values 1, 2, ... assigned in
first-sighting order, no duplicate keys, counter one past the last value. -/
def DeviceTableInv (p : Platform) : Prop :=
  p.device_indices.map Prod.snd = List.range' 1 p.device_indices.length
  ∧ (p.device_indices.map Prod.fst).Nodup
  ∧ p.next_device_index = p.device_indices.length + 1

/-- The invariant holds at construction (empty table, counter 1). -/
theorem inv_new (desc : PlatformDescriptor) (clip : Option String) :
    DeviceTableInv (Platform.new desc clip) :=
  ⟨rfl, by simp [Platform.new], rfl⟩

/-- The invariant is preserved by every event. -/
theorem inv_step (p : Platform) (macos : Bool) (e : WinitEvent)
    (h : DeviceTableInv p) : DeviceTableInv (p.handle_event macos e) := by
  obtain ⟨hsnd, hfst, hnext⟩ := h
  rcases handle_event_device_table p macos e with ⟨h1, h2⟩ | ⟨d, hd, h1, h2⟩
  · exact ⟨by rw [h1, hsnd], by rw [h1]; exact hfst, by rw [h1, h2, hnext]⟩
  · refine ⟨?_, ?_, ?_⟩
    · rw [h1, List.map_append, List.length_append, hsnd, hnext]
      simp [List.range'_concat, Nat.add_comm]
    · rw [h1, List.map_append, List.nodup_append]
      refine ⟨hfst, by simp, ?_⟩
      intro a ha
      simp only [List.map_cons, List.map_nil, List.mem_singleton]
      rintro rfl
      exact lookup_eq_none_not_mem hd ha
    · rw [h1, h2, hnext]
      simp

/-- The invariant is preserved by every event sequence. -/
theorem inv_fold (macos : Bool) (es : List WinitEvent) :
    ∀ q : Platform, DeviceTableInv q → DeviceTableInv (processEvents macos q es) := by
  induction es with
  | nil => exact fun _ h => h
  | cons e es ih => exact fun q h => ih _ (inv_step q macos e h)

/-- C8: after any event sequence from a fresh platform, the device index table
assigns the dense values 1, 2, ... in order of first sighting, never maps two
distinct identifiers to the same integer (its key and value columns are both
duplicate-free), keeps the counter one past the table size, and every mapping,
once present, persists unchanged under any further event sequence. -/
theorem device_index_table_props (macos : Bool) (desc : PlatformDescriptor)
    (clip : Option String) (es : List WinitEvent) :
    ((processEvents macos (Platform.new desc clip) es).device_indices.map Prod.snd
        = List.range' 1 (processEvents macos (Platform.new desc clip) es).device_indices.length)
    ∧ ((processEvents macos (Platform.new desc clip) es).device_indices.map Prod.fst).Nodup
    ∧ ((processEvents macos (Platform.new desc clip) es).device_indices.map Prod.snd).Nodup
    ∧ ((processEvents macos (Platform.new desc clip) es).next_device_index
        = (processEvents macos (Platform.new desc clip) es).device_indices.length + 1)
    ∧ (∀ d n,
        (processEvents macos (Platform.new desc clip) es).device_indices.lookup d = some n →
        ∀ es2 : List WinitEvent,
          (processEvents macos (processEvents macos (Platform.new desc clip) es)
            es2).device_indices.lookup d = some n) := by
  obtain ⟨h1, h2, h3⟩ := inv_fold macos es (Platform.new desc clip) (inv_new desc clip)
  refine ⟨h1, h2, ?_, h3, ?_⟩
  · rw [h1]
    exact List.nodup_range' _ _
  · intro d n h es2
    exact processEvents_lookup_mono macos es2 _ h

/-- Witness for `device_index_table_props`: device 7 is assigned index 1 by its
first touch and still maps to 1 after a further touch event. -/
theorem device_index_table_props_witness :
    (processEvents false
        (processEvents false (Platform.new desc0 none) [.windowEvent (.touch touchStart7)])
        [.windowEvent (.touch touchEnd7)]).device_indices.lookup 7 = some 1 :=
  (device_index_table_props false desc0 none [.windowEvent (.touch touchStart7)]).2.2.2.2 7 1
    (by decide) [.windowEvent (.touch touchEnd7)]

end EguiWinit
